import Mathlib

/-!
Verification of the 64drive USB tool's protocol core (src/64drive.h, src/main.c).

The development shallowly embeds the C code:

* machine integers are `Nat`/`Int` with explicit `% 2^32` where `uint32_t`
  arithmetic wraps; the signed 32-bit return of `device_get_version` is
  modelled with `toSigned32`;
* the raw FTDI link is an oracle `link : Nat → Int` giving the return value of
  the n-th bulk `ftdi_write_data`/`ftdi_read_data` call of a transfer, and a
  response oracle `resp : Nat → Nat → Nat` giving byte `i` of the `k`-th
  64-byte GETVER response; `malloc` and the chunk-size negotiation calls are
  assumed to succeed, and `usleep`/`ftdi_usb_purge_buffers`/diagnostic prints
  are recorded as events rather than performed;
* memory stores/loads of `uint32_t` through byte buffers follow the
  little-endian host layout the tool targets; the command codec additionally
  carries an explicit `hostBE` flag so that host-order dependence itself can
  be examined (`encodeFrameH`), with `encodeFrame = encodeFrameH false` used
  everywhere else;
* file contents are not modelled (no claim depends on the bytes moved);
  the file position bookkeeping of `device_upload` is modelled by `FileSt`;
* the per-chunk while-loops recurse on an explicit iteration budget
  (`fuel`); the wrappers pass `size.toNat`, which is proved sufficient
  (each iteration moves at least one byte, `tloop_no_early_exit`), so the
  embedding agrees with the C loop on every reachable input.
-/

/-- Byte-swap a 32-bit value: `swap_endian` of src/main.c lines 49-54, with
each `uint32_t` intermediate reduced `% 2^32` where C wraps. -/
def swap_endian (val : Nat) : Nat :=
  ((val <<< 24) % 4294967296) |||
  (((val <<< 8) % 4294967296) &&& 0x00ff0000) |||
  ((val >>> 8) &&& 0x0000ff00) |||
  (val >>> 24)

/-- Big-endian byte decomposition of a 32-bit value (specification-side helper). -/
def beBytes32 (v : Nat) : List Nat :=
  [v / 16777216 % 256, v / 65536 % 256, v / 256 % 256, v % 256]

/-- Little-endian byte decomposition of a 32-bit value: the memory layout of a
`uint32_t` store on a little-endian host. -/
def leBytes32 (v : Nat) : List Nat :=
  [v % 256, v / 256 % 256, v / 65536 % 256, v / 16777216 % 256]

/-- Memory layout of a `uint32_t` store, parameterized by host byte order.
The C code stores params through `uint32_t *paramBuf = (uint32_t*)&tx_buf[4]`,
so the emitted bytes depend on the host order. -/
def storeU32 (hostBE : Bool) (v : Nat) : List Nat :=
  if hostBE then beBytes32 (v % 4294967296) else leBytes32 (v % 4294967296)

/-- Command frame built by `device_send_cmd` (src/main.c lines 96-112) on a host
of the given byte order: opcode byte, ASCII `C`,`M`,`D`, then for each
parameter the bytes of `swap_endian(param)` in host store order. Exactly the
first `4 + 4*nParams` bytes of `tx_buf` are written to the device. -/
def encodeFrameH (hostBE : Bool) (cmd : Nat) (params : List Nat) : List Nat :=
  cmd % 256 :: 67 :: 77 :: 68 ::
    params.flatMap (fun p => storeU32 hostBE (swap_endian (p % 4294967296)))

/-- Command frame on the little-endian host the tool targets. -/
def encodeFrame : Nat → List Nat → List Nat := encodeFrameH false

/-- Observable I/O events of one call, in order. -/
inductive Ev where
  | cmdWrite (frame : List Nat)
  | respRead (req : Nat) (res : Int)
  | bulk (req : Nat) (res : Int)
  | sleep (usec : Nat)
  | purge
  | errReport (bytes : Int)
  deriving DecidableEq

/-- Result of `device_send_cmd` (src/main.c lines 94-132): return value and the
I/O performed. `wr` and `rr` are the results the link would return for the
frame write and the response read. -/
structure SCOut where
  ret : Int
  events : List Ev
  deriving DecidableEq

/-- Model of `device_send_cmd`: refuses `nParams >= 32/4` before any I/O,
otherwise writes the `4 + 4n` byte frame; if `respLen > 0` it then reads the
response and returns the read result, else the write result. -/
def device_send_cmd (wr rr : Int) (cmd : Nat) (params : List Nat) (respLen : Nat) : SCOut :=
  if params.length ≥ 8 then ⟨-1, []⟩
  else
    let frame := encodeFrame cmd params
    if wr ≤ 0 then ⟨wr, [Ev.cmdWrite frame]⟩
    else if 0 < respLen then ⟨rr, [Ev.cmdWrite frame, Ev.respRead respLen rr]⟩
    else ⟨wr, [Ev.cmdWrite frame]⟩

/-- Result of the bounded retry loop around one bulk transfer
(src/main.c lines 233-241 / 306-314). -/
structure ROut where
  trace : List Ev
  n : Int
  att : Nat
  deriving DecidableEq

/-- Retry loop `for(tries=0; tries<5; tries++)` of `device_upload`/
`device_download`: attempt the bulk transfer; stop on positive progress,
otherwise `usleep(10000)`, purge the buffers and retry. `cur` mirrors the
running `nSent`/`nRecv` variable (initially `-1`); the loop result is the
first positive transfer count, or the last attempt's result. -/
def retryGo (link : Nat → Int) (cs : Nat) (idx : Nat) : Nat → Int → ROut
  | 0, cur => ⟨[], cur, 0⟩
  | fuel+1, _ =>
    let n := link idx
    if 0 < n then ⟨[Ev.bulk cs n], n, 1⟩
    else
      let r := retryGo link cs (idx+1) fuel n
      ⟨Ev.bulk cs n :: Ev.sleep 10000 :: Ev.purge :: r.trace, r.n, r.att + 1⟩

/-- Packed second parameter of LOADRAM/DUMPRAM:
`(chunkSize & 0xffffff) | bank << 24` (src/main.c lines 230/303). -/
def packedSizeBank (cs bank : Nat) : Nat :=
  (cs &&& 0xffffff) ||| ((bank <<< 24) % 4294967296)

/-- Outcome of one upload/download call: C return value, final `offset`,
final `readPos`, per-chunk transfer counts, I/O trace, number of loop
iterations, and whether the early-return failure path was taken. -/
structure TLOut where
  ret : Int
  offset : Nat
  readPos : Int
  chunks : List Int
  trace : List Ev
  iters : Nat
  aborted : Bool
  deriving DecidableEq

/-- Chunk loop `for(readPos=0; readPos<size;)` shared by `device_upload`
(src/main.c lines 227-256, `op = 0x20`) and `device_download` (lines 302-330,
`op = 0x30`): send the command frame for the current offset, run the bulk
transfer with up to 5 attempts, abort returning `nSent` and printing the bytes
moved so far (`Ev.errReport rp`) if all attempts fail, else advance `offset`
(a wrapping `uint32_t`) and `readPos` by the bytes actually moved. `fuel`
bounds the iteration count; callers pass `size.toNat`, which never runs out
(`tloop_no_early_exit`) because every iteration moves at least one byte. -/
def tloop (link : Nat → Int) (op cs bank : Nat) (size : Int) :
    Nat → Nat → Int → Nat → TLOut
  | 0, offset, rp, _ => ⟨0, offset, rp, [], [], 0, false⟩
  | fuel+1, offset, rp, idx =>
    if rp < size then
      let frame := encodeFrame op [offset, packedSizeBank cs bank]
      let r := retryGo link cs idx 5 (-1)
      if 0 < r.n then
        let rest := tloop link op cs bank size fuel ((offset + r.n.toNat) % 4294967296)
          (rp + r.n) (idx + r.att)
        ⟨rest.ret, rest.offset, rest.readPos, r.n :: rest.chunks,
          Ev.cmdWrite frame :: (r.trace ++ rest.trace), rest.iters + 1, rest.aborted⟩
      else
        ⟨r.n, offset, rp, [], Ev.cmdWrite frame :: (r.trace ++ [Ev.errReport rp]), 1, true⟩
    else ⟨0, offset, rp, [], [], 0, false⟩

/-- Chunk-size selection in units of 128 KiB (src/main.c lines 200-203 and
278-281): 32 units above 16 MiB, 16 units above 2 MiB, else 4 units. -/
def chunkUnits (size : Int) : Nat :=
  if size > 16 * 1024 * 1024 then 32 else if size > 2 * 1024 * 1024 then 16 else 4

/-- Chunk size in bytes: `chunkSize *= 128 * 1024` then
`if(chunkSize > size) chunkSize = size` (src/main.c lines 206-207, 284-285);
the assignment converts the `int64_t` size to `uint32_t`, hence the `% 2^32`. -/
def chunkSizeU (size : Int) : Nat :=
  let c : Nat := chunkUnits size * 128 * 1024
  if (c : Int) > size then (size % 4294967296).toNat else c

/-- File-position state of the stdio stream handed to `device_upload`. -/
structure FileSt where
  pos : Int
  len : Int
  deriving DecidableEq

/-- Size derivation of `device_upload` (src/main.c lines 192-197): a negative
`size` is replaced by `ftell`-to-end-of-file remainder, and the position is
restored with `fseek(file, cur, SEEK_SET)` before the transfer begins. -/
def uploadSizePrep (f : FileSt) (size : Int) : Int × FileSt :=
  if size < 0 then
    let cur := f.pos
    let f1 : FileSt := { f with pos := f.len }
    let sz := f1.pos - cur
    let f2 : FileSt := { f1 with pos := cur }
    (sz, f2)
  else (size, f)

/-- Size default of `device_download` (src/main.c lines 272-275): a negative
`size` is replaced by the fixed 256 MiB bound. -/
def downloadSizeDefault (size : Int) : Int :=
  if size < 0 then 256 * 1024 * 1024 else size

/-- Model of `device_upload` (src/main.c lines 182-260): derive the size,
compute the chunk size once, then run the chunk loop with opcode
`DEV_CMD_LOADRAM = 0x20` from `readPos = 0`. -/
def device_upload (link : Nat → Int) (f : FileSt) (size0 : Int) (offset bank : Nat) : TLOut :=
  let size := (uploadSizePrep f size0).1
  tloop link 0x20 (chunkSizeU size) bank size size.toNat (offset % 4294967296) 0 0

/-- Model of `device_download` (src/main.c lines 263-334): default the size,
compute the chunk size once, then run the chunk loop with opcode
`DEV_CMD_DUMPRAM = 0x30` from `readPos = 0`. -/
def device_download (link : Nat → Int) (size0 : Int) (offset bank : Nat) : TLOut :=
  let size := downloadSizeDefault size0
  tloop link 0x30 (chunkSizeU size) bank size size.toNat (offset % 4294967296) 0 0

/-- Magic constant `DEV_MAGIC = 0x55444556` of src/64drive.h. -/
def DEV_MAGICn : Nat := 0x55444556

/-- Magic word computed by `device_get_version` (src/main.c lines 155-156) from
a 64-byte response: the second `uint32_t` is loaded from bytes 4..7 in
little-endian host order and then byte-swapped. -/
def respMagic (r : Nat → Nat) : Nat :=
  swap_endian ((r 4 + r 5 * 256 + r 6 * 65536 + r 7 * 16777216) % 4294967296)

/-- Reinterpret the low 32 bits of a value as a signed 32-bit `int`. -/
def toSigned32 (v : Nat) : Int :=
  if v % 4294967296 < 2147483648 then ((v % 4294967296 : Nat) : Int)
  else ((v % 4294967296 : Nat) : Int) - 4294967296

/-- Return value of a successful `device_get_version` (src/main.c line 178):
`(response[0] << 24) | (response[1] << 16) | (response[2] << 8)` in 32-bit
`int` arithmetic. -/
def gvRet (r : Nat → Nat) : Int :=
  toSigned32 ((((r 0 % 256) <<< 24) ||| ((r 1 % 256) <<< 16) ||| ((r 2 % 256) <<< 8)) % 4294967296)

/-- Outcome of `device_get_version`: return value, the captured variant bytes,
the number of send/receive exchanges performed, the number of responses whose
magic was checked, and the number of mismatch diagnostics printed. -/
structure GVOut where
  ret : Int
  variant : List Nat
  exchanges : Nat
  checked : Nat
  diags : Nat
  deriving DecidableEq

/-- Validation loop of `device_get_version` (src/main.c lines 145-170): check
the magic of response `k`; on success capture `response[0..2]` and return the
packed variant; on mismatch print a diagnostic when verbose, and fail with
`-1` (the communication-failure path) once `++tries >= 4`. `rem` is the
number of mismatches still allowed (`4 - tries`). -/
def gvLoop (resp : Nat → Nat → Nat) (verb : Int) : Nat → Nat → GVOut
  | 0, _ => ⟨-1, [], 0, 0, 0⟩
  | rem+1, k =>
    if respMagic (resp k) = DEV_MAGICn then
      ⟨gvRet (resp k), [resp k 0 % 256, resp k 1 % 256, resp k 2 % 256], 1, 1, 0⟩
    else
      let d : Nat := if 0 < verb then 1 else 0
      let rest := gvLoop resp verb rem (k+1)
      ⟨rest.ret, rest.variant, rest.exchanges + 1, rest.checked + 1, rest.diags + d⟩

/-- Model of `device_get_version` (src/main.c lines 135-179): one initial
GETVER exchange whose response (index 0) is read but never validated, then
the validation loop over responses 1, 2, ... with at most 4 mismatches.
I/O itself is assumed to succeed; `resp k` is the `k`-th response. -/
def device_get_version (resp : Nat → Nat → Nat) (verb : Int) : GVOut :=
  let rest := gvLoop resp verb 4 1
  { rest with exchanges := rest.exchanges + 1 }

/-- CIC table `cic_types` of src/main.c lines 33-47, as (numeric id, enum id):
the enum ids are `CIC_6101 = 0`, ..., `CIC_5101 = 7` from src/64drive.h. -/
def cic_types : List (Nat × Nat) :=
  [(6101, 0), (6102, 1), (7101, 2), (7102, 3), (103, 4), (105, 5), (106, 6), (5101, 7)]

/-- CIC lookup of the `-c` option handler (src/main.c lines 537-556): scan the
table accepting a numeric-id match or (Windows compatibility) a bare index
below `CIC_LAST = 8`. -/
def cicFind (num : Nat) : List (Nat × Nat) → Nat → Option Nat
  | [], _ => none
  | e :: rest, i =>
    if e.1 = num ∨ (num < 8 ∧ num = i) then some e.2 else cicFind num rest (i+1)

/-- CIC numeric id to enum id. -/
def cicLookup (num : Nat) : Option Nat := cicFind num cic_types 0

/-- Model of `device_set_cic` (src/main.c lines 337-347): refuse immediately on
hardware variant `'A'` (byte 65), else send `DEV_CMD_SETCIC = 0x72` with the
single parameter `(1 << 31) | cic` and no response expected. `wr` is the
result the link returns for the frame write. -/
def device_set_cic (wr : Int) (variant0 : Nat) (cic : Nat) : SCOut :=
  if variant0 = 65 then ⟨-1, []⟩
  else device_send_cmd wr 0 0x72 [((1 <<< 31) ||| cic) % 4294967296] 0

/-- Masking with a byte mask shifted by `k` extracts that byte field. -/
theorem and_mask_byte (x k : Nat) : x &&& (255 <<< k) = x / 2 ^ k % 256 * 2 ^ k := by
  have h : x / 2 ^ k % 256 * 2 ^ k = ((x >>> k) % 2 ^ 8) <<< k := by
    rw [Nat.shiftLeft_eq, Nat.shiftRight_eq_div_pow]
    norm_num
  rw [h]
  apply Nat.eq_of_testBit_eq
  intro i
  rw [Nat.testBit_and]
  rw [show (255 : Nat) = 2 ^ 8 - 1 from rfl]
  simp only [Nat.testBit_shiftLeft, Nat.testBit_two_pow_sub_one, Nat.testBit_mod_two_pow,
    Nat.testBit_shiftRight]
  by_cases hk : k ≤ i
  · simp [hk, Bool.and_assoc, Bool.and_comm]
  · simp [hk, ge_iff_le]

/-- Arithmetic characterization of `swap_endian` on 32-bit inputs: the four
bytes are reversed. -/
theorem swap_endian_eq (p : Nat) (hp : p < 4294967296) :
    swap_endian p =
      p % 256 * 16777216 + p / 256 % 256 * 65536 + p / 65536 % 256 * 256 + p / 16777216 := by
  unfold swap_endian
  rw [show (0x00ff0000 : Nat) = 255 <<< 16 from rfl, show (0x0000ff00 : Nat) = 255 <<< 8 from rfl]
  rw [and_mask_byte, and_mask_byte]
  rw [Nat.shiftLeft_eq, Nat.shiftLeft_eq, Nat.shiftRight_eq_div_pow, Nat.shiftRight_eq_div_pow]
  have hA : p * 2 ^ 24 % 4294967296 = p % 256 * 16777216 := by
    have h24 : (2 : Nat) ^ 24 = 16777216 := by norm_num
    rw [h24]; omega
  have hB : p * 2 ^ 8 % 4294967296 / 2 ^ 16 % 256 * 2 ^ 16 = p / 256 % 256 * 65536 := by
    have h8 : (2 : Nat) ^ 8 = 256 := by norm_num
    have h16 : (2 : Nat) ^ 16 = 65536 := by norm_num
    rw [h8, h16]; omega
  have hC : p / 2 ^ 8 / 2 ^ 8 % 256 * 2 ^ 8 = p / 65536 % 256 * 256 := by
    have h8 : (2 : Nat) ^ 8 = 256 := by norm_num
    rw [h8]; omega
  have hD : p / 2 ^ 24 = p / 16777216 := by norm_num
  rw [hA, hB, hC, hD]
  have h1 : p % 256 * 16777216 ||| p / 256 % 256 * 65536 =
      p % 256 * 16777216 + p / 256 % 256 * 65536 := by
    rw [show p % 256 * 16777216 = 2 ^ 24 * (p % 256) by ring]
    exact (Nat.mul_add_lt_is_or (by omega) _).symm
  have h2 : p % 256 * 16777216 + p / 256 % 256 * 65536 ||| p / 65536 % 256 * 256 =
      p % 256 * 16777216 + p / 256 % 256 * 65536 + p / 65536 % 256 * 256 := by
    rw [show p % 256 * 16777216 + p / 256 % 256 * 65536 =
      2 ^ 16 * (p % 256 * 256 + p / 256 % 256) by ring]
    exact (Nat.mul_add_lt_is_or (by omega) _).symm
  have h3 : p % 256 * 16777216 + p / 256 % 256 * 65536 + p / 65536 % 256 * 256 ||| p / 16777216 =
      p % 256 * 16777216 + p / 256 % 256 * 65536 + p / 65536 % 256 * 256 + p / 16777216 := by
    rw [show p % 256 * 16777216 + p / 256 % 256 * 65536 + p / 65536 % 256 * 256 =
      2 ^ 8 * (p % 256 * 65536 + p / 256 % 256 * 256 + p / 65536 % 256) by ring]
    have : p / 16777216 < 2 ^ 8 := by omega
    exact (Nat.mul_add_lt_is_or this _).symm
  rw [h1, h2, h3]

/-- Value of `swap_endian` is below `2^32` on 32-bit inputs. -/
theorem swap_endian_lt (p : Nat) (hp : p < 4294967296) : swap_endian p < 4294967296 := by
  rw [swap_endian_eq p hp]
  omega

/-- Little-endian byte decomposition of a value assembled from four bytes. -/
theorem leBytes32_of_bytes (a b c d : Nat) (ha : a < 256) (hb : b < 256) (hc : c < 256)
    (hd : d < 256) : leBytes32 (a * 16777216 + b * 65536 + c * 256 + d) = [d, c, b, a] := by
  unfold leBytes32
  have h1 : (a * 16777216 + b * 65536 + c * 256 + d) % 256 = d := by omega
  have h2 : (a * 16777216 + b * 65536 + c * 256 + d) / 256 % 256 = c := by omega
  have h3 : (a * 16777216 + b * 65536 + c * 256 + d) / 65536 % 256 = b := by omega
  have h4 : (a * 16777216 + b * 65536 + c * 256 + d) / 16777216 % 256 = a := by omega
  rw [h1, h2, h3, h4]

/-- Storing the byte-swapped value on a little-endian host emits exactly the
big-endian bytes of the original parameter. -/
theorem storeU32_swap (p : Nat) (hp : p < 4294967296) :
    storeU32 false (swap_endian p) = beBytes32 p := by
  unfold storeU32
  rw [if_neg (by simp)]
  rw [Nat.mod_eq_of_lt (swap_endian_lt p hp)]
  rw [swap_endian_eq p hp]
  rw [leBytes32_of_bytes (p % 256) (p / 256 % 256) (p / 65536 % 256) (p / 16777216)
    (by omega) (by omega) (by omega) (by omega)]
  unfold beBytes32
  have h : p / 16777216 % 256 = p / 16777216 := by omega
  rw [h]

/-- Length of a `uint32_t` store is 4 bytes on either host order. -/
theorem storeU32_length (hostBE : Bool) (v : Nat) : (storeU32 hostBE v).length = 4 := by
  unfold storeU32
  split <;> rfl

/-- Frames built on a little-endian host carry the parameters in big-endian
byte order: the codec output is the opcode, the `C`,`M`,`D` tag, and the
big-endian bytes of each parameter. -/
theorem encodeFrame_beBytes (cmd : Nat) (params : List Nat) (hc : cmd < 256)
    (hp : ∀ p ∈ params, p < 4294967296) :
    encodeFrame cmd params = cmd :: 67 :: 77 :: 68 :: params.flatMap beBytes32 := by
  unfold encodeFrame encodeFrameH
  rw [Nat.mod_eq_of_lt hc]
  have h : params.flatMap (fun p => storeU32 false (swap_endian (p % 4294967296))) =
      params.flatMap beBytes32 := by
    apply List.flatMap_congr
    intro x hx
    rw [Nat.mod_eq_of_lt (hp x hx)]
    exact storeU32_swap x (hp x hx)
  rw [h]

/-- Frame length is exactly `4 + 4 * nParams` on either host order. -/
theorem encodeFrameH_length (hostBE : Bool) (cmd : Nat) (params : List Nat) :
    (encodeFrameH hostBE cmd params).length = 4 + 4 * params.length := by
  unfold encodeFrameH
  induction params with
  | nil => rfl
  | cons x xs ih =>
    rw [List.flatMap_cons]
    simp only [List.length_cons, List.length_append, storeU32_length] at *
    omega

/-- Frame length of the little-endian codec. -/
theorem encodeFrame_length (cmd : Nat) (params : List Nat) :
    (encodeFrame cmd params).length = 4 + 4 * params.length :=
  encodeFrameH_length false cmd params

/-- Unfolding of `retryGo` at fuel 0. -/
theorem retryGo_zero (link : Nat → Int) (cs idx : Nat) (cur : Int) :
    retryGo link cs idx 0 cur = ⟨[], cur, 0⟩ := rfl

/-- Unfolding of `retryGo` at positive fuel. -/
theorem retryGo_succ (link : Nat → Int) (cs idx fuel : Nat) (cur : Int) :
    retryGo link cs idx (fuel+1) cur =
      if 0 < link idx then ⟨[Ev.bulk cs (link idx)], link idx, 1⟩
      else
        let r := retryGo link cs (idx+1) fuel (link idx)
        ⟨Ev.bulk cs (link idx) :: Ev.sleep 10000 :: Ev.purge :: r.trace, r.n, r.att + 1⟩ := rfl

/-- Attempt count of the retry loop never exceeds the allowed bound. -/
theorem retryGo_att_le (link : Nat → Int) (cs : Nat) :
    ∀ fuel idx cur, (retryGo link cs idx fuel cur).att ≤ fuel := by
  intro fuel
  induction fuel with
  | zero => intro idx cur; exact Nat.le_refl 0
  | succ f ih =>
    intro idx cur
    rw [retryGo_succ]
    by_cases h : 0 < link idx
    · simp only [h, if_pos]
      exact Nat.succ_le_succ (Nat.zero_le f)
    · simp only [h, if_neg, not_false_iff]
      exact Nat.succ_le_succ (ih (idx+1) (link idx))

/-- When every attempt reports non-positive progress the retry loop performs
exactly `fuel` attempts and ends with the last attempt's result. -/
theorem retryGo_all_fail (link : Nat → Int) (cs : Nat) :
    ∀ fuel idx cur, 0 < fuel → (∀ j, j < fuel → link (idx + j) ≤ 0) →
      (retryGo link cs idx fuel cur).att = fuel ∧
      (retryGo link cs idx fuel cur).n = link (idx + (fuel - 1)) := by
  intro fuel
  induction fuel with
  | zero => intro idx cur h0; exact absurd h0 (Nat.lt_irrefl 0)
  | succ f ih =>
    intro idx cur _ hall
    have h0 : ¬ 0 < link idx := by
      have h := hall 0 (Nat.succ_pos f)
      rw [Nat.add_zero] at h
      omega
    rw [retryGo_succ]
    simp only [h0, if_neg, not_false_iff]
    by_cases hf : 0 < f
    · have := ih (idx+1) (link idx) hf (fun j hj => by
        have := hall (j+1) (by omega)
        have he : idx + (j + 1) = idx + 1 + j := by omega
        rw [he] at this
        exact this)
      refine ⟨by omega, ?_⟩
      rw [this.2]
      have he : idx + 1 + (f - 1) = idx + (f + 1 - 1) := by omega
      rw [he]
    · have hf0 : f = 0 := by omega
      subst hf0
      rw [retryGo_zero]
      exact ⟨rfl, rfl⟩

/-- Shape of the retry loop's event trace as described by the retry policy:
one bulk attempt per try, every failed attempt followed by the 10 ms delay
and a buffer purge (hence every retry is preceded by both). -/
def retryPattern (link : Nat → Int) (cs idx : Nat) (att : Nat) : List Ev :=
  (List.range att).flatMap (fun j =>
    Ev.bulk cs (link (idx + j)) ::
      (if 0 < link (idx + j) then [] else [Ev.sleep 10000, Ev.purge]))

/-- Trace of the retry loop follows `retryPattern` over its attempt count. -/
theorem retryGo_trace (link : Nat → Int) (cs : Nat) :
    ∀ fuel idx cur, (retryGo link cs idx fuel cur).trace =
      retryPattern link cs idx (retryGo link cs idx fuel cur).att := by
  intro fuel
  induction fuel with
  | zero => intro idx cur; rfl
  | succ f ih =>
    intro idx cur
    rw [retryGo_succ]
    by_cases h : 0 < link idx
    · rw [if_pos h]
      unfold retryPattern
      rw [show List.range 1 = [0] from rfl]
      simp [h]
    · rw [if_neg h]
      show Ev.bulk cs (link idx) :: Ev.sleep 10000 :: Ev.purge ::
          (retryGo link cs (idx+1) f (link idx)).trace =
        retryPattern link cs idx ((retryGo link cs (idx+1) f (link idx)).att + 1)
      rw [ih (idx + 1) (link idx)]
      unfold retryPattern
      rw [List.range_succ_eq_map, List.flatMap_cons, List.flatMap_map]
      have h2 : (fun j => Ev.bulk cs (link (idx + Nat.succ j)) ::
          (if 0 < link (idx + Nat.succ j) then [] else [Ev.sleep 10000, Ev.purge]))
          = fun j => Ev.bulk cs (link (idx + 1 + j)) ::
          (if 0 < link (idx + 1 + j) then [] else [Ev.sleep 10000, Ev.purge]) := by
        funext j
        have he : idx + Nat.succ j = idx + 1 + j := by omega
        rw [he]
      rw [h2]
      simp [h]

/-- Unfolding of `tloop` at fuel 0. -/
theorem tloop_zero (link : Nat → Int) (op cs bank : Nat) (size : Int) (offset : Nat)
    (rp : Int) (idx : Nat) :
    tloop link op cs bank size 0 offset rp idx = ⟨0, offset, rp, [], [], 0, false⟩ := rfl

/-- Unfolding of `tloop` when the loop condition fails. -/
theorem tloop_succ_done (link : Nat → Int) (op cs bank : Nat) (size : Int) (fuel offset : Nat)
    (rp : Int) (idx : Nat) (h : ¬ rp < size) :
    tloop link op cs bank size (fuel+1) offset rp idx = ⟨0, offset, rp, [], [], 0, false⟩ := by
  simp only [tloop]
  rw [if_neg h]

/-- Unfolding of `tloop` on a successful chunk. -/
theorem tloop_succ_step (link : Nat → Int) (op cs bank : Nat) (size : Int) (fuel offset : Nat)
    (rp : Int) (idx : Nat) (h : rp < size) (hn : 0 < (retryGo link cs idx 5 (-1)).n) :
    tloop link op cs bank size (fuel+1) offset rp idx =
      ⟨(tloop link op cs bank size fuel
          ((offset + (retryGo link cs idx 5 (-1)).n.toNat) % 4294967296)
          (rp + (retryGo link cs idx 5 (-1)).n) (idx + (retryGo link cs idx 5 (-1)).att)).ret,
        (tloop link op cs bank size fuel
          ((offset + (retryGo link cs idx 5 (-1)).n.toNat) % 4294967296)
          (rp + (retryGo link cs idx 5 (-1)).n) (idx + (retryGo link cs idx 5 (-1)).att)).offset,
        (tloop link op cs bank size fuel
          ((offset + (retryGo link cs idx 5 (-1)).n.toNat) % 4294967296)
          (rp + (retryGo link cs idx 5 (-1)).n) (idx + (retryGo link cs idx 5 (-1)).att)).readPos,
        (retryGo link cs idx 5 (-1)).n ::
          (tloop link op cs bank size fuel
            ((offset + (retryGo link cs idx 5 (-1)).n.toNat) % 4294967296)
            (rp + (retryGo link cs idx 5 (-1)).n) (idx + (retryGo link cs idx 5 (-1)).att)).chunks,
        Ev.cmdWrite (encodeFrame op [offset, packedSizeBank cs bank]) ::
          ((retryGo link cs idx 5 (-1)).trace ++
            (tloop link op cs bank size fuel
              ((offset + (retryGo link cs idx 5 (-1)).n.toNat) % 4294967296)
              (rp + (retryGo link cs idx 5 (-1)).n)
              (idx + (retryGo link cs idx 5 (-1)).att)).trace),
        (tloop link op cs bank size fuel
          ((offset + (retryGo link cs idx 5 (-1)).n.toNat) % 4294967296)
          (rp + (retryGo link cs idx 5 (-1)).n) (idx + (retryGo link cs idx 5 (-1)).att)).iters + 1,
        (tloop link op cs bank size fuel
          ((offset + (retryGo link cs idx 5 (-1)).n.toNat) % 4294967296)
          (rp + (retryGo link cs idx 5 (-1)).n)
          (idx + (retryGo link cs idx 5 (-1)).att)).aborted⟩ := by
  simp only [tloop]
  rw [if_pos h, if_pos hn]

/-- Unfolding of `tloop` on an aborting chunk (all retries failed). -/
theorem tloop_succ_abort (link : Nat → Int) (op cs bank : Nat) (size : Int) (fuel offset : Nat)
    (rp : Int) (idx : Nat) (h : rp < size) (hn : ¬ 0 < (retryGo link cs idx 5 (-1)).n) :
    tloop link op cs bank size (fuel+1) offset rp idx =
      ⟨(retryGo link cs idx 5 (-1)).n, offset, rp, [],
        Ev.cmdWrite (encodeFrame op [offset, packedSizeBank cs bank]) ::
          ((retryGo link cs idx 5 (-1)).trace ++ [Ev.errReport rp]), 1, true⟩ := by
  simp only [tloop]
  rw [if_pos h, if_neg hn]

/-- Retry-loop traces never contain a command-frame write. -/
theorem retryGo_no_cmdWrite (link : Nat → Int) (cs : Nat) :
    ∀ fuel idx cur fr, Ev.cmdWrite fr ∉ (retryGo link cs idx fuel cur).trace := by
  intro fuel
  induction fuel with
  | zero => intro idx cur fr hm; exact absurd hm (List.not_mem_nil _)
  | succ f ih =>
    intro idx cur fr
    rw [retryGo_succ]
    by_cases h : 0 < link idx
    · rw [if_pos h]
      simp
    · rw [if_neg h]
      show Ev.cmdWrite fr ∉ Ev.bulk cs (link idx) :: Ev.sleep 10000 :: Ev.purge ::
        (retryGo link cs (idx+1) f (link idx)).trace
      simp only [List.mem_cons]
      intro hm
      rcases hm with hm | hm | hm | hm
      · exact absurd hm (by simp)
      · exact absurd hm (by simp)
      · exact absurd hm (by simp)
      · exact ih (idx+1) (link idx) fr hm

/-- Every chunk recorded by the transfer loop moved at least one byte. -/
theorem tloop_chunks_pos (link : Nat → Int) (op cs bank : Nat) (size : Int) :
    ∀ fuel offset idx (rp : Int) (c : Int),
      c ∈ (tloop link op cs bank size fuel offset rp idx).chunks → 0 < c := by
  intro fuel
  induction fuel with
  | zero => intro offset idx rp c hc; exact absurd hc (List.not_mem_nil _)
  | succ f ih =>
    intro offset idx rp c hc
    by_cases hs : rp < size
    · by_cases hn : 0 < (retryGo link cs idx 5 (-1)).n
      · rw [tloop_succ_step link op cs bank size f offset rp idx hs hn] at hc
        simp only [List.mem_cons] at hc
        rcases hc with hc | hc
        · rw [hc]; exact hn
        · exact ih _ _ _ c hc
      · rw [tloop_succ_abort link op cs bank size f offset rp idx hs hn] at hc
        exact absurd hc (List.not_mem_nil _)
    · rw [tloop_succ_done link op cs bank size f offset rp idx hs] at hc
      exact absurd hc (List.not_mem_nil _)

/-- Final `readPos` is the starting `readPos` plus the bytes moved by the
recorded chunks. -/
theorem tloop_readPos (link : Nat → Int) (op cs bank : Nat) (size : Int) :
    ∀ fuel offset idx (rp : Int),
      (tloop link op cs bank size fuel offset rp idx).readPos =
        rp + (tloop link op cs bank size fuel offset rp idx).chunks.sum := by
  intro fuel
  induction fuel with
  | zero => intro offset idx rp; rw [tloop_zero]; simp
  | succ f ih =>
    intro offset idx rp
    by_cases hs : rp < size
    · by_cases hn : 0 < (retryGo link cs idx 5 (-1)).n
      · rw [tloop_succ_step link op cs bank size f offset rp idx hs hn]
        simp only [List.sum_cons]
        rw [ih]
        ring
      · rw [tloop_succ_abort link op cs bank size f offset rp idx hs hn]
        simp
    · rw [tloop_succ_done link op cs bank size f offset rp idx hs]
      simp

/-- Iteration count of the transfer loop is bounded by the fuel. -/
theorem tloop_iters_le (link : Nat → Int) (op cs bank : Nat) (size : Int) :
    ∀ fuel offset idx (rp : Int),
      (tloop link op cs bank size fuel offset rp idx).iters ≤ fuel := by
  intro fuel
  induction fuel with
  | zero => intro offset idx rp; rw [tloop_zero]
  | succ f ih =>
    intro offset idx rp
    by_cases hs : rp < size
    · by_cases hn : 0 < (retryGo link cs idx 5 (-1)).n
      · rw [tloop_succ_step link op cs bank size f offset rp idx hs hn]
        exact Nat.succ_le_succ (ih _ _ _)
      · rw [tloop_succ_abort link op cs bank size f offset rp idx hs hn]
        show 1 ≤ f + 1
        omega
    · rw [tloop_succ_done link op cs bank size f offset rp idx hs]
      show 0 ≤ f + 1
      omega

/-- With fuel at least `size - readPos` the loop cannot exit early: a
non-aborted run ends with `readPos ≥ size`. This discharges the iteration
budget of the embedding: each chunk moves at least one byte, so `size.toNat`
iterations always suffice. -/
theorem tloop_no_early_exit (link : Nat → Int) (op cs bank : Nat) (size : Int) :
    ∀ fuel offset idx (rp : Int), (size - rp).toNat ≤ fuel →
      (tloop link op cs bank size fuel offset rp idx).aborted = false →
      size ≤ (tloop link op cs bank size fuel offset rp idx).readPos := by
  intro fuel
  induction fuel with
  | zero =>
    intro offset idx rp hf _
    rw [tloop_zero]
    simp only []
    omega
  | succ f ih =>
    intro offset idx rp hf hab
    by_cases hs : rp < size
    · by_cases hn : 0 < (retryGo link cs idx 5 (-1)).n
      · rw [tloop_succ_step link op cs bank size f offset rp idx hs hn] at hab ⊢
        simp only [] at hab ⊢
        apply ih
        · have := hn
          omega
        · exact hab
      · rw [tloop_succ_abort link op cs bank size f offset rp idx hs hn] at hab
        simp at hab
    · rw [tloop_succ_done link op cs bank size f offset rp idx hs]
      simp only []
      omega

/-- Non-aborted runs return 0, the C success value. -/
theorem tloop_ret_success (link : Nat → Int) (op cs bank : Nat) (size : Int) :
    ∀ fuel offset idx (rp : Int),
      (tloop link op cs bank size fuel offset rp idx).aborted = false →
      (tloop link op cs bank size fuel offset rp idx).ret = 0 := by
  intro fuel
  induction fuel with
  | zero => intro offset idx rp _; rw [tloop_zero]
  | succ f ih =>
    intro offset idx rp hab
    by_cases hs : rp < size
    · by_cases hn : 0 < (retryGo link cs idx 5 (-1)).n
      · rw [tloop_succ_step link op cs bank size f offset rp idx hs hn] at hab ⊢
        exact ih _ _ _ hab
      · rw [tloop_succ_abort link op cs bank size f offset rp idx hs hn] at hab
        simp at hab
    · rw [tloop_succ_done link op cs bank size f offset rp idx hs]

/-- Aborted runs return the non-positive last transfer result and print the
bytes moved in the chunks completed before the failure (the `errReport`
event), which equal the final `readPos`. -/
theorem tloop_abort (link : Nat → Int) (op cs bank : Nat) (size : Int) :
    ∀ fuel offset idx (rp : Int),
      (tloop link op cs bank size fuel offset rp idx).aborted = true →
      (tloop link op cs bank size fuel offset rp idx).ret ≤ 0 ∧
      Ev.errReport (tloop link op cs bank size fuel offset rp idx).readPos ∈
        (tloop link op cs bank size fuel offset rp idx).trace := by
  intro fuel
  induction fuel with
  | zero => intro offset idx rp hab; rw [tloop_zero] at hab; simp at hab
  | succ f ih =>
    intro offset idx rp hab
    by_cases hs : rp < size
    · by_cases hn : 0 < (retryGo link cs idx 5 (-1)).n
      · rw [tloop_succ_step link op cs bank size f offset rp idx hs hn] at hab ⊢
        simp only [] at hab ⊢
        have h := ih _ _ _ hab
        refine ⟨h.1, ?_⟩
        simp only [List.mem_cons, List.mem_append]
        right; right
        exact h.2
      · rw [tloop_succ_abort link op cs bank size f offset rp idx hs hn]
        simp only []
        refine ⟨by omega, ?_⟩
        simp
    · rw [tloop_succ_done link op cs bank size f offset rp idx hs] at hab
      simp at hab

/-- Every command frame the transfer loop writes is a two-parameter frame of
the loop's opcode whose second parameter is the one packed size/bank word
computed before the loop: the chunk size is computed once per call, not per
chunk. -/
theorem tloop_frames (link : Nat → Int) (op cs bank : Nat) (size : Int) :
    ∀ fuel offset idx (rp : Int) (e : Ev),
      e ∈ (tloop link op cs bank size fuel offset rp idx).trace →
      ∀ fr, e = Ev.cmdWrite fr →
      ∃ o, fr = encodeFrame op [o, packedSizeBank cs bank] := by
  intro fuel
  induction fuel with
  | zero => intro offset idx rp e he fr _; rw [tloop_zero] at he; exact absurd he (List.not_mem_nil _)
  | succ f ih =>
    intro offset idx rp e he fr hfr
    by_cases hs : rp < size
    · by_cases hn : 0 < (retryGo link cs idx 5 (-1)).n
      · rw [tloop_succ_step link op cs bank size f offset rp idx hs hn] at he
        simp only [List.mem_cons, List.mem_append] at he
        rcases he with he | he | he
        · refine ⟨offset, ?_⟩
          rw [hfr] at he
          exact (Ev.cmdWrite.inj he.symm).symm
        · rw [hfr] at he
          exact absurd he (retryGo_no_cmdWrite link cs 5 idx (-1) fr)
        · exact ih _ _ _ e he fr hfr
      · rw [tloop_succ_abort link op cs bank size f offset rp idx hs hn] at he
        simp only [List.mem_cons, List.mem_append, List.mem_singleton] at he
        rcases he with he | he | he
        · refine ⟨offset, ?_⟩
          rw [hfr] at he
          exact (Ev.cmdWrite.inj he.symm).symm
        · rw [hfr] at he
          exact absurd he (retryGo_no_cmdWrite link cs 5 idx (-1) fr)
        · rw [hfr] at he
          simp at he
    · rw [tloop_succ_done link op cs bank size f offset rp idx hs] at he
      exact absurd he (List.not_mem_nil _)

/-- Unfolding of `gvLoop` when no more mismatches are allowed. -/
theorem gvLoop_zero (resp : Nat → Nat → Nat) (verb : Int) (k : Nat) :
    gvLoop resp verb 0 k = ⟨-1, [], 0, 0, 0⟩ := rfl

/-- Unfolding of `gvLoop` with mismatches still allowed. -/
theorem gvLoop_succ (resp : Nat → Nat → Nat) (verb : Int) (rem k : Nat) :
    gvLoop resp verb (rem+1) k =
      if respMagic (resp k) = DEV_MAGICn then
        ⟨gvRet (resp k), [resp k 0 % 256, resp k 1 % 256, resp k 2 % 256], 1, 1, 0⟩
      else
        let d : Nat := if 0 < verb then 1 else 0
        let rest := gvLoop resp verb rem (k+1)
        ⟨rest.ret, rest.variant, rest.exchanges + 1, rest.checked + 1, rest.diags + d⟩ := rfl

/-- When every checked response mismatches, the validation loop checks exactly
`rem` responses and fails with `-1`, logging one diagnostic per mismatch when
verbose. -/
theorem gvLoop_all_fail (resp : Nat → Nat → Nat) (verb : Int) :
    ∀ rem k, (∀ j, k ≤ j → j < k + rem → respMagic (resp j) ≠ DEV_MAGICn) →
      gvLoop resp verb rem k = ⟨-1, [], rem, rem, if 0 < verb then rem else 0⟩ := by
  intro rem
  induction rem with
  | zero =>
    intro k _
    rw [gvLoop_zero]
    have h : (if 0 < verb then 0 else 0) = 0 := by split <;> rfl
    rw [h]
  | succ r ih =>
    intro k hall
    rw [gvLoop_succ]
    rw [if_neg (hall k (Nat.le_refl k) (by omega))]
    rw [ih (k+1) (fun j h1 h2 => hall j (by omega) (by omega))]
    show (⟨-1, [], r + 1, r + 1,
      (if 0 < verb then r else 0) + (if 0 < verb then 1 else 0)⟩ : GVOut) = _
    have h : ((if 0 < verb then r else 0) + (if 0 < verb then 1 else 0)) =
        (if 0 < verb then r + 1 else 0) := by split <;> rfl
    rw [h]

/-- When the first match occurs at the `j`-th checked response (with `j < rem`
mismatches before it), the validation loop accepts there: it returns the
packed variant of that response, records its first three bytes, and performs
exactly `j + 1` checks, with one diagnostic per preceding mismatch when
verbose. -/
theorem gvLoop_accept (resp : Nat → Nat → Nat) (verb : Int) :
    ∀ rem k j, j < rem →
      (∀ i, i < j → respMagic (resp (k + i)) ≠ DEV_MAGICn) →
      respMagic (resp (k + j)) = DEV_MAGICn →
      gvLoop resp verb rem k =
        ⟨gvRet (resp (k + j)),
          [resp (k + j) 0 % 256, resp (k + j) 1 % 256, resp (k + j) 2 % 256],
          j + 1, j + 1, if 0 < verb then j else 0⟩ := by
  intro rem
  induction rem with
  | zero => intro k j hj; omega
  | succ r ih =>
    intro k j hj hpre hj2
    rw [gvLoop_succ]
    cases j with
    | zero =>
      rw [Nat.add_zero] at hj2
      rw [if_pos hj2]
      rw [Nat.add_zero]
      have h : (if 0 < verb then 0 else 0) = 0 := by split <;> rfl
      rw [h]
    | succ j' =>
      have h0 : respMagic (resp k) ≠ DEV_MAGICn := by
        have := hpre 0 (Nat.succ_pos j')
        rw [Nat.add_zero] at this
        exact this
      rw [if_neg h0]
      rw [ih (k+1) j' (by omega)
        (fun i hi => by
          have := hpre (i+1) (by omega)
          have he : k + (i + 1) = k + 1 + i := by omega
          rw [he] at this
          exact this)
        (by
          have he : k + 1 + j' = k + (j' + 1) := by omega
          rw [he]
          exact hj2)]
      show (⟨gvRet (resp (k + 1 + j')),
        [resp (k + 1 + j') 0 % 256, resp (k + 1 + j') 1 % 256, resp (k + 1 + j') 2 % 256],
        j' + 1 + 1, j' + 1 + 1,
        (if 0 < verb then j' else 0) + (if 0 < verb then 1 else 0)⟩ : GVOut) = _
      have he : k + 1 + j' = k + (j' + 1) := by omega
      have h : ((if 0 < verb then j' else 0) + (if 0 < verb then 1 else 0)) =
          (if 0 < verb then j' + 1 else 0) := by split <;> rfl
      rw [he, h]

/-- Disjoint byte fields assembled with `|||` add. -/
theorem or3_bytes (a b c : Nat) (_ha : a < 256) (hb : b < 256) (hc : c < 256) :
    ((a <<< 24) ||| (b <<< 16) ||| (c <<< 8)) = a * 16777216 + b * 65536 + c * 256 := by
  rw [Nat.shiftLeft_eq, Nat.shiftLeft_eq, Nat.shiftLeft_eq]
  rw [show (2:Nat) ^ 24 = 16777216 from by norm_num]
  rw [show (2:Nat) ^ 16 = 65536 from by norm_num]
  rw [show (2:Nat) ^ 8 = 256 from by norm_num]
  have h1 : a * 16777216 ||| b * 65536 = a * 16777216 + b * 65536 := by
    rw [show a * 16777216 = 2 ^ 24 * a from by norm_num [Nat.mul_comm]]
    refine (Nat.mul_add_lt_is_or ?_ _).symm
    show b * 65536 < 2 ^ 24
    norm_num
    omega
  rw [h1]
  rw [show a * 16777216 + b * 65536 = 2 ^ 16 * (a * 256 + b) from by
    rw [show (2:Nat) ^ 16 = 65536 from by norm_num]; ring]
  rw [← Nat.mul_add_lt_is_or (show c * 256 < 2 ^ 16 from by norm_num; omega) (a * 256 + b)]

/-- Packed-variant return of `device_get_version` in plain arithmetic. -/
theorem gvRet_eq (r : Nat → Nat) :
    gvRet r = toSigned32 (r 0 % 256 * 16777216 + r 1 % 256 * 65536 + r 2 % 256 * 256) := by
  unfold gvRet
  rw [or3_bytes (r 0 % 256) (r 1 % 256) (r 2 % 256) (by omega) (by omega) (by omega)]
  rw [Nat.mod_eq_of_lt (by omega)]

/-- Magic extraction equals the big-endian reading of response bytes 4..7. -/
theorem respMagic_eq (r : Nat → Nat) (hb : ∀ i, r i < 256) :
    respMagic r = r 4 * 16777216 + r 5 * 65536 + r 6 * 256 + r 7 := by
  unfold respMagic
  have h4 := hb 4
  have h5 := hb 5
  have h6 := hb 6
  have h7 := hb 7
  rw [Nat.mod_eq_of_lt (by omega)]
  rw [swap_endian_eq _ (by omega)]
  have e0 : (r 4 + r 5 * 256 + r 6 * 65536 + r 7 * 16777216) % 256 = r 4 := by omega
  have e1 : (r 4 + r 5 * 256 + r 6 * 65536 + r 7 * 16777216) / 256 % 256 = r 5 := by omega
  have e2 : (r 4 + r 5 * 256 + r 6 * 65536 + r 7 * 16777216) / 65536 % 256 = r 6 := by omega
  have e3 : (r 4 + r 5 * 256 + r 6 * 65536 + r 7 * 16777216) / 16777216 = r 7 := by omega
  rw [e0, e1, e2, e3]

/-- Response oracle refuting the first-response acceptance reading: the very
first GETVER response carries the magic word in bytes 4..7, every later
response is all zero. -/
def c2resp (k i : Nat) : Nat :=
  if k = 0 then
    (if i = 4 then 85 else if i = 5 then 68 else if i = 6 then 69 else if i = 7 then 86 else 0)
  else 0

/-- Response oracle whose every response carries the magic word but reports
the variant bytes `0x80, 0x00, 0x00`. -/
def c9resp (_ i : Nat) : Nat :=
  if i = 0 then 128
  else if i = 4 then 85 else if i = 5 then 68 else if i = 6 then 69 else if i = 7 then 86
  else 0

/-- Response oracle whose every response carries the magic word and the
variant bytes `'B','.','1'`. -/
def okResp (_ i : Nat) : Nat :=
  if i = 0 then 66 else if i = 1 then 46 else if i = 2 then 49
  else if i = 4 then 85 else if i = 5 then 68 else if i = 6 then 69 else if i = 7 then 86
  else 0

/-- Response oracle that never carries the magic word. -/
def badResp (_ _ : Nat) : Nat := 0

/-- Claim C3 (counterexample): the frame bytes are not independent of host
byte order. The codec stores `swap_endian(param)` through a `uint32_t*`
cast, so on a big-endian host opcode `0x90` with parameter `0x10000000`
encodes its parameter little-endian, not as the claimed
`0x90,'C','M','D',0x10,0x00,0x00,0x00`. -/
theorem c3_counterexample :
    encodeFrameH true 0x90 [0x10000000] = [0x90, 67, 77, 68, 0, 0, 0, 0x10] ∧
    encodeFrameH true 0x90 [0x10000000] ≠ [0x90, 67, 77, 68, 0x10, 0, 0, 0] := by decide

/-- Claim C3 (amended): on the little-endian host the tool targets, for every
opcode byte `c` and parameter list of length at most 7 the encoded frame is
exactly `4 + 4n` bytes: the opcode, the ASCII tag `C`,`M`,`D`, then each
parameter as 4 big-endian bytes; in particular opcode `0x90` with parameter
`0x10000000` encodes as `0x90,'C','M','D',0x10,0x00,0x00,0x00`. -/
theorem c3_frame_encoding (cmd : Nat) (params : List Nat) (hc : cmd < 256)
    (_hn : params.length ≤ 7) (hp : ∀ p ∈ params, p < 4294967296) :
    encodeFrame cmd params = cmd :: 67 :: 77 :: 68 :: params.flatMap beBytes32 ∧
    (encodeFrame cmd params).length = 4 + 4 * params.length ∧
    encodeFrame 0x90 [0x10000000] = [0x90, 67, 77, 68, 0x10, 0, 0, 0] :=
  ⟨encodeFrame_beBytes cmd params hc hp, encodeFrame_length cmd params, by decide⟩

/-- Witness for `c3_frame_encoding` at opcode `0x90`, params `[0x10000000]`. -/
theorem c3_frame_encoding_witness :
    encodeFrame 0x90 [0x10000000] =
      0x90 :: 67 :: 77 :: 68 :: ([0x10000000] : List Nat).flatMap beBytes32 ∧
    (encodeFrame 0x90 [0x10000000]).length = 4 + 4 * ([0x10000000] : List Nat).length ∧
    encodeFrame 0x90 [0x10000000] = [0x90, 67, 77, 68, 0x10, 0, 0, 0] :=
  c3_frame_encoding 0x90 [0x10000000] (by norm_num) (by simp) (by decide)

/-- Claim C7: a command with at most 7 parameters builds the frame and hands
it to the raw write primitive (the first I/O event is the frame write); a
command with 8 or more parameters fails with `-1` and performs no I/O at all,
neither the command write nor any response read. -/
theorem c7_param_limit (wr rr : Int) (cmd : Nat) (params : List Nat) (respLen : Nat) :
    (params.length ≤ 7 →
      (device_send_cmd wr rr cmd params respLen).events.head? =
        some (Ev.cmdWrite (encodeFrame cmd params))) ∧
    (8 ≤ params.length → device_send_cmd wr rr cmd params respLen = ⟨-1, []⟩) := by
  constructor
  · intro h
    unfold device_send_cmd
    rw [if_neg (by omega)]
    by_cases hw : wr ≤ 0
    · rw [if_pos hw]
      rfl
    · rw [if_neg hw]
      by_cases hr : 0 < respLen
      · rw [if_pos hr]
        rfl
      · rw [if_neg hr]
        rfl
  · intro h
    unfold device_send_cmd
    rw [if_pos (by omega)]

/-- Witness for `c7_param_limit`: one 2-parameter call writes its frame first,
one 8-parameter call performs no I/O. -/
theorem c7_param_limit_witness :
    (device_send_cmd 12 0 0x20 [0, 524288] 0).events.head? =
      some (Ev.cmdWrite (encodeFrame 0x20 [0, 524288])) ∧
    device_send_cmd 12 0 0x20 [1, 2, 3, 4, 5, 6, 7, 8] 0 = ⟨-1, []⟩ :=
  ⟨(c7_param_limit 12 0 0x20 [0, 524288] 0).1 (by simp),
    (c7_param_limit 12 0 0x20 [1, 2, 3, 4, 5, 6, 7, 8] 0).2 (by simp)⟩

/-- Claim C6: `device_set_cic` on hardware variant `'A'` fails immediately
with `-1` and sends nothing; on any other variant it sends exactly one
8-byte frame whose single parameter is `(1 << 31) | cic`; CIC 6102 has
internal id 1, giving parameter `0x80000001`. -/
theorem c6_set_cic :
    (∀ (wr : Int) (cic : Nat), device_set_cic wr 65 cic = ⟨-1, []⟩) ∧
    (∀ (wr : Int) (v cic : Nat), v ≠ 65 → cic < 2147483648 →
      (device_set_cic wr v cic).events =
        [Ev.cmdWrite (encodeFrame 0x72 [2147483648 ||| cic])] ∧
      (encodeFrame 0x72 [2147483648 ||| cic]).length = 8) ∧
    cicLookup 6102 = some 1 ∧
    ((2147483648 : Nat) ||| 1) = 0x80000001 ∧
    (∀ (wr : Int) (v : Nat), v ≠ 65 →
      (device_set_cic wr v 1).events = [Ev.cmdWrite (encodeFrame 0x72 [0x80000001])]) := by
  have hev : ∀ (wr : Int) (v cic : Nat), v ≠ 65 → cic < 2147483648 →
      (device_set_cic wr v cic).events =
        [Ev.cmdWrite (encodeFrame 0x72 [2147483648 ||| cic])] := by
    intro wr v cic hv hcic
    unfold device_set_cic device_send_cmd
    rw [if_neg hv]
    rw [if_neg (by simp)]
    have hlt : (2147483648 : Nat) ||| cic < 4294967296 := by
      have := Nat.or_lt_two_pow (x := 2147483648) (y := cic) (n := 32) (by norm_num) (by omega)
      simpa using this
    have hmod : ((1 <<< 31) ||| cic) % 4294967296 = 2147483648 ||| cic := by
      rw [show (1 <<< 31 : Nat) = 2147483648 from rfl]
      exact Nat.mod_eq_of_lt hlt
    rw [hmod]
    by_cases hw : wr ≤ 0
    · rw [if_pos hw]
    · rw [if_neg hw]
      rw [if_neg (by omega)]
  refine ⟨fun wr cic => by unfold device_set_cic; rw [if_pos rfl], ?_, by decide, by decide, ?_⟩
  · intro wr v cic hv hcic
    refine ⟨hev wr v cic hv hcic, ?_⟩
    rw [encodeFrame_length]
    rfl
  · intro wr v hv
    have h := hev wr v 1 hv (by norm_num)
    rw [h]
    rfl

/-- Witness for `c6_set_cic`: variant `'A'` (65) sends nothing, variant `'B'`
(66) with CIC id 1 sends the single 8-byte frame with parameter
`0x80000001`. -/
theorem c6_set_cic_witness :
    device_set_cic 8 65 1 = ⟨-1, []⟩ ∧
    (device_set_cic 8 66 1).events = [Ev.cmdWrite (encodeFrame 0x72 [2147483648 ||| 1])] ∧
    (device_set_cic 8 66 1).events = [Ev.cmdWrite (encodeFrame 0x72 [0x80000001])] :=
  ⟨c6_set_cic.1 8 1, ((c6_set_cic.2.1 8 66 1 (by norm_num) (by norm_num)).1),
    c6_set_cic.2.2.2.2 8 66 (by norm_num)⟩

/-- Claim C8: a negative (unspecified) size makes `device_upload` derive the
transfer size from the source's remaining readable length, restoring the
position before the transfer, while `device_download` instead uses the fixed
256 MiB bound; a non-negative size is used as given. -/
theorem c8_size_defaults (f : FileSt) (size : Int) :
    (size < 0 →
      (uploadSizePrep f size).1 = f.len - f.pos ∧
      (uploadSizePrep f size).2.pos = f.pos ∧
      downloadSizeDefault size = 268435456) ∧
    (0 ≤ size → uploadSizePrep f size = (size, f) ∧ downloadSizeDefault size = size) := by
  constructor
  · intro h
    unfold uploadSizePrep downloadSizeDefault
    rw [if_pos h, if_pos h]
    exact ⟨rfl, rfl, rfl⟩
  · intro h
    unfold uploadSizePrep downloadSizeDefault
    rw [if_neg (by omega), if_neg (by omega)]
    exact ⟨rfl, rfl⟩

/-- Witness for `c8_size_defaults` at a file of length 10 positioned at 3. -/
theorem c8_size_defaults_witness :
    (uploadSizePrep ⟨3, 10⟩ (-1)).1 = 7 ∧ (uploadSizePrep ⟨3, 10⟩ (-1)).2.pos = 3 ∧
    downloadSizeDefault (-1) = 268435456 ∧ uploadSizePrep ⟨3, 10⟩ 4 = (4, ⟨3, 10⟩) := by
  have h1 := (c8_size_defaults ⟨3, 10⟩ (-1)).1 (by norm_num)
  have h2 := (c8_size_defaults ⟨3, 10⟩ 4).2 (by norm_num)
  refine ⟨?_, h1.2.1, h1.2.2, h2.1⟩
  rw [h1.1]
  norm_num

/-- Claim C4: chunk sizing picks 32/16/4 units of 131072 bytes by the
16 MiB / 2 MiB thresholds, clamps to `min(chunkSize, size)`, is monotone
nondecreasing in the size, is a multiple of 131072 whenever the clamp does
not apply, and is computed once per call: every LOADRAM/DUMPRAM frame of one
upload or download carries the same packed size/bank parameter. -/
theorem c4_chunk_sizing :
    (∀ s : Int, (16777216 < s → chunkUnits s = 32) ∧
      (2097152 < s → s ≤ 16777216 → chunkUnits s = 16) ∧ (s ≤ 2097152 → chunkUnits s = 4)) ∧
    (∀ s : Int, 0 ≤ s → (chunkSizeU s : Int) = min ((chunkUnits s : Int) * 131072) s) ∧
    (∀ s t : Int, 0 ≤ s → s ≤ t → chunkSizeU s ≤ chunkSizeU t) ∧
    (∀ s : Int, 0 ≤ s → ¬ (((chunkUnits s * 128 * 1024 : Nat) : Int) > s) →
      (131072 : Nat) ∣ chunkSizeU s) ∧
    (∀ (link : Nat → Int) (f : FileSt) (size0 : Int) (offset bank : Nat) (e : Ev),
      e ∈ (device_upload link f size0 offset bank).trace → ∀ fr, e = Ev.cmdWrite fr →
      ∃ o, fr = encodeFrame 0x20
        [o, packedSizeBank (chunkSizeU (uploadSizePrep f size0).1) bank]) ∧
    (∀ (link : Nat → Int) (size0 : Int) (offset bank : Nat) (e : Ev),
      e ∈ (device_download link size0 offset bank).trace → ∀ fr, e = Ev.cmdWrite fr →
      ∃ o, fr = encodeFrame 0x30
        [o, packedSizeBank (chunkSizeU (downloadSizeDefault size0)) bank]) := by
  refine ⟨?_, ?_, ?_, ?_, ?_, ?_⟩
  · intro s
    refine ⟨fun h => ?_, fun h1 h2 => ?_, fun h => ?_⟩ <;>
      (unfold chunkUnits; split_ifs <;> omega)
  · intro s hs
    simp only [chunkSizeU, chunkUnits]
    split_ifs <;> push_cast <;> omega
  · intro s t hs hst
    simp only [chunkSizeU, chunkUnits]
    split_ifs <;> omega
  · intro s hs hc
    simp only [chunkSizeU]
    rw [if_neg hc]
    exact ⟨chunkUnits s, by ring⟩
  · intro link f size0 offset bank e he fr hfr
    simp only [device_upload] at he
    exact tloop_frames link 0x20 (chunkSizeU (uploadSizePrep f size0).1) bank
      (uploadSizePrep f size0).1 (uploadSizePrep f size0).1.toNat
      (offset % 4294967296) 0 0 e he fr hfr
  · intro link size0 offset bank e he fr hfr
    simp only [device_download] at he
    exact tloop_frames link 0x30 (chunkSizeU (downloadSizeDefault size0)) bank
      (downloadSizeDefault size0) (downloadSizeDefault size0).toNat
      (offset % 4294967296) 0 0 e he fr hfr

/-- Witness for `c4_chunk_sizing` at sizes 100 and 1048576 (1 MiB). -/
theorem c4_chunk_sizing_witness :
    chunkUnits 1048576 = 4 ∧
    (chunkSizeU 1048576 : Int) = min ((chunkUnits 1048576 : Int) * 131072) 1048576 ∧
    chunkSizeU 100 ≤ chunkSizeU 1048576 ∧
    (131072 : Nat) ∣ chunkSizeU 1048576 :=
  ⟨(c4_chunk_sizing.1 1048576).2.2 (by norm_num),
    c4_chunk_sizing.2.1 1048576 (by norm_num),
    c4_chunk_sizing.2.2.1 100 1048576 (by norm_num) (by norm_num),
    c4_chunk_sizing.2.2.2.1 1048576 (by norm_num) (by decide)⟩

/-- Claim C5: a chunk's bulk transfer is attempted at most 5 times, every
retry is preceded by the 10 ms delay and a buffer purge (the trace follows
`retryPattern`), five non-positive results exhaust the retries with the last
result, and an exhausted chunk aborts the whole call with a non-positive
return while reporting the bytes moved in the prior chunks. -/
theorem c5_retry_policy (link : Nat → Int) (cs idx : Nat) :
    (retryGo link cs idx 5 (-1)).att ≤ 5 ∧
    (retryGo link cs idx 5 (-1)).trace =
      retryPattern link cs idx (retryGo link cs idx 5 (-1)).att ∧
    ((∀ j, j < 5 → link (idx + j) ≤ 0) →
      (retryGo link cs idx 5 (-1)).att = 5 ∧
      (retryGo link cs idx 5 (-1)).n = link (idx + 4) ∧
      (retryGo link cs idx 5 (-1)).n ≤ 0) ∧
    (∀ (f : FileSt) (size0 : Int) (offset bank : Nat),
      (device_upload link f size0 offset bank).aborted = true →
      (device_upload link f size0 offset bank).ret ≤ 0 ∧
      (device_upload link f size0 offset bank).readPos =
        (device_upload link f size0 offset bank).chunks.sum ∧
      Ev.errReport (device_upload link f size0 offset bank).readPos ∈
        (device_upload link f size0 offset bank).trace) ∧
    (∀ (size0 : Int) (offset bank : Nat),
      (device_download link size0 offset bank).aborted = true →
      (device_download link size0 offset bank).ret ≤ 0 ∧
      (device_download link size0 offset bank).readPos =
        (device_download link size0 offset bank).chunks.sum ∧
      Ev.errReport (device_download link size0 offset bank).readPos ∈
        (device_download link size0 offset bank).trace) := by
  refine ⟨retryGo_att_le link cs 5 idx (-1), retryGo_trace link cs 5 idx (-1), ?_, ?_, ?_⟩
  · intro h
    have hall := retryGo_all_fail link cs 5 idx (-1) (by omega) h
    refine ⟨hall.1, ?_, ?_⟩
    · rw [hall.2]
    · rw [hall.2]
      exact h 4 (by omega)
  · intro f size0 offset bank hab
    simp only [device_upload] at hab ⊢
    have h1 := tloop_abort link 0x20 (chunkSizeU (uploadSizePrep f size0).1) bank
      (uploadSizePrep f size0).1 (uploadSizePrep f size0).1.toNat
      (offset % 4294967296) 0 0 hab
    have h2 := tloop_readPos link 0x20 (chunkSizeU (uploadSizePrep f size0).1) bank
      (uploadSizePrep f size0).1 (uploadSizePrep f size0).1.toNat
      (offset % 4294967296) 0 0
    rw [zero_add] at h2
    exact ⟨h1.1, h2, h1.2⟩
  · intro size0 offset bank hab
    simp only [device_download] at hab ⊢
    have h1 := tloop_abort link 0x30 (chunkSizeU (downloadSizeDefault size0)) bank
      (downloadSizeDefault size0) (downloadSizeDefault size0).toNat
      (offset % 4294967296) 0 0 hab
    have h2 := tloop_readPos link 0x30 (chunkSizeU (downloadSizeDefault size0)) bank
      (downloadSizeDefault size0) (downloadSizeDefault size0).toNat
      (offset % 4294967296) 0 0
    rw [zero_add] at h2
    exact ⟨h1.1, h2, h1.2⟩

/-- Witness for `c5_retry_policy`: a link that always reports 0 exhausts all 5
attempts and the upload aborts reporting the bytes moved before failure. -/
theorem c5_retry_policy_witness :
    (retryGo (fun _ => 0) 4 0 5 (-1)).att = 5 ∧
    (retryGo (fun _ => 0) 4 0 5 (-1)).n ≤ 0 ∧
    (device_upload (fun _ => 0) ⟨0, 10⟩ 10 0 1).ret ≤ 0 ∧
    Ev.errReport (device_upload (fun _ => 0) ⟨0, 10⟩ 10 0 1).readPos ∈
      (device_upload (fun _ => 0) ⟨0, 10⟩ 10 0 1).trace := by
  have h1 := (c5_retry_policy (fun _ => 0) 4 0).2.2.1 (by intro j hj; decide)
  have h2 := (c5_retry_policy (fun _ => 0) 4 0).2.2.2.1 ⟨0, 10⟩ 10 0 1 (by decide)
  exact ⟨h1.1, h1.2.2, h2.1, h2.2.2⟩

/-- Claim C10: the per-chunk loops terminate for every link behaviour: every
chunk moves at least one byte, the loop runs at most `size` iterations, and a
non-aborted run has moved at least `size` bytes when it stops. -/
theorem c10_termination :
    (∀ (link : Nat → Int) (f : FileSt) (size0 : Int) (offset bank : Nat),
      (∀ c : Int, c ∈ (device_upload link f size0 offset bank).chunks → 1 ≤ c) ∧
      (device_upload link f size0 offset bank).iters ≤ (uploadSizePrep f size0).1.toNat ∧
      ((device_upload link f size0 offset bank).aborted = false →
        (uploadSizePrep f size0).1 ≤ (device_upload link f size0 offset bank).readPos)) ∧
    (∀ (link : Nat → Int) (size0 : Int) (offset bank : Nat),
      (∀ c : Int, c ∈ (device_download link size0 offset bank).chunks → 1 ≤ c) ∧
      (device_download link size0 offset bank).iters ≤ (downloadSizeDefault size0).toNat ∧
      ((device_download link size0 offset bank).aborted = false →
        downloadSizeDefault size0 ≤ (device_download link size0 offset bank).readPos)) := by
  constructor
  · intro link f size0 offset bank
    refine ⟨?_, ?_, ?_⟩
    · intro c hc
      simp only [device_upload] at hc
      have := tloop_chunks_pos link 0x20 (chunkSizeU (uploadSizePrep f size0).1) bank
        (uploadSizePrep f size0).1 (uploadSizePrep f size0).1.toNat
        (offset % 4294967296) 0 0 c hc
      omega
    · simp only [device_upload]
      exact tloop_iters_le link 0x20 (chunkSizeU (uploadSizePrep f size0).1) bank
        (uploadSizePrep f size0).1 (uploadSizePrep f size0).1.toNat
        (offset % 4294967296) 0 0
    · intro hab
      simp only [device_upload] at hab ⊢
      exact tloop_no_early_exit link 0x20 (chunkSizeU (uploadSizePrep f size0).1) bank
        (uploadSizePrep f size0).1 (uploadSizePrep f size0).1.toNat
        (offset % 4294967296) 0 0 (by omega) hab
  · intro link size0 offset bank
    refine ⟨?_, ?_, ?_⟩
    · intro c hc
      simp only [device_download] at hc
      have := tloop_chunks_pos link 0x30 (chunkSizeU (downloadSizeDefault size0)) bank
        (downloadSizeDefault size0) (downloadSizeDefault size0).toNat
        (offset % 4294967296) 0 0 c hc
      omega
    · simp only [device_download]
      exact tloop_iters_le link 0x30 (chunkSizeU (downloadSizeDefault size0)) bank
        (downloadSizeDefault size0) (downloadSizeDefault size0).toNat
        (offset % 4294967296) 0 0
    · intro hab
      simp only [device_download] at hab ⊢
      exact tloop_no_early_exit link 0x30 (chunkSizeU (downloadSizeDefault size0)) bank
        (downloadSizeDefault size0) (downloadSizeDefault size0).toNat
        (offset % 4294967296) 0 0 (by omega) hab

/-- Witness for `c10_termination` on concrete upload and download runs. -/
theorem c10_termination_witness :
    (device_upload (fun _ => 7) ⟨0, 10⟩ 10 0 1).iters ≤ (uploadSizePrep ⟨0, 10⟩ 10).1.toNat ∧
    (uploadSizePrep ⟨0, 10⟩ 10).1 ≤ (device_upload (fun _ => 7) ⟨0, 10⟩ 10 0 1).readPos ∧
    (device_download (fun _ => 7) 10 0 1).iters ≤ (downloadSizeDefault 10).toNat := by
  have h1 := c10_termination.1 (fun _ => 7) ⟨0, 10⟩ 10 0 1
  have h2 := c10_termination.2 (fun _ => 7) 10 0 1
  exact ⟨h1.2.1, h1.2.2 (by decide), h2.2.1⟩

/-- Claim C1 (evaluation at the failing input): an upload of size 10 over a
link that moves 7 bytes per bulk write finishes successfully, but the loop
requests a full `chunkSize` every iteration regardless of the bytes
remaining, so the sum of the per-chunk transfers is 14 and the final offset
is 14 — not the initial offset plus the size. -/
theorem c1_upload_overshoot :
    (device_upload (fun _ => 7) ⟨0, 10⟩ 10 0 1).aborted = false ∧
    (device_upload (fun _ => 7) ⟨0, 10⟩ 10 0 1).ret = 0 ∧
    (device_upload (fun _ => 7) ⟨0, 10⟩ 10 0 1).chunks = [7, 7] ∧
    (device_upload (fun _ => 7) ⟨0, 10⟩ 10 0 1).chunks.sum = 14 ∧
    (device_upload (fun _ => 7) ⟨0, 10⟩ 10 0 1).readPos = 14 ∧
    (device_upload (fun _ => 7) ⟨0, 10⟩ 10 0 1).offset = 14 ∧
    ¬ ((device_upload (fun _ => 7) ⟨0, 10⟩ 10 0 1).offset = 0 + 10) ∧
    ¬ ((device_upload (fun _ => 7) ⟨0, 10⟩ 10 0 1).chunks.sum = 10) := by decide

/-- Claim C2 (counterexample): the handshake does not accept on the first
response carrying the magic word. With a device whose response 0 carries the
magic in its second big-endian word and whose later responses do not, the
call still fails with `-1`: the initial exchange's response is read but never
validated. -/
theorem c2_counterexample :
    respMagic (c2resp 0) = 0x55444556 ∧
    (device_get_version c2resp 1).ret = -1 ∧
    (device_get_version c2resp 1).variant = [] ∧
    (device_get_version c2resp 1).exchanges = 5 := by decide

/-- Claim C2 (amended): after one initial exchange whose response is
discarded unchecked, the handshake accepts on the first subsequent response
whose second big-endian word equals `0x55444556`; a device whose checked
responses never match fails with the communication-failure result `-1` after
exactly 4 checked attempts (5 exchanges in total), each mismatch producing a
diagnostic (when verbose) rather than being fatal. -/
theorem c2_handshake_amended (resp : Nat → Nat → Nat) (verb : Int) :
    ((∀ j, 1 ≤ j → j ≤ 4 → respMagic (resp j) ≠ DEV_MAGICn) →
      device_get_version resp verb = ⟨-1, [], 5, 4, if 0 < verb then 4 else 0⟩) ∧
    (∀ k, 1 ≤ k → k ≤ 4 → (∀ j, 1 ≤ j → j < k → respMagic (resp j) ≠ DEV_MAGICn) →
      respMagic (resp k) = DEV_MAGICn →
      device_get_version resp verb =
        ⟨gvRet (resp k), [resp k 0 % 256, resp k 1 % 256, resp k 2 % 256], k + 1, k,
          if 0 < verb then k - 1 else 0⟩) := by
  constructor
  · intro h
    show ({ gvLoop resp verb 4 1 with
      exchanges := (gvLoop resp verb 4 1).exchanges + 1 } : GVOut) = _
    rw [gvLoop_all_fail resp verb 4 1 (fun j h1 h2 => h j h1 (by omega))]
  · intro k hk1 hk4 hpre hmag
    show ({ gvLoop resp verb 4 1 with
      exchanges := (gvLoop resp verb 4 1).exchanges + 1 } : GVOut) = _
    rw [gvLoop_accept resp verb 4 1 (k - 1) (by omega)
      (fun i hi => hpre (1 + i) (by omega) (by omega))
      (by
        have he : 1 + (k - 1) = k := by omega
        rw [he]
        exact hmag)]
    have he : 1 + (k - 1) = k := by omega
    rw [he]
    have he2 : k - 1 + 1 = k := by omega
    rw [he2]

/-- Witness for `c2_handshake_amended`: a never-matching device fails with 4
checked attempts and 5 exchanges; a device matching from the start is
accepted on the first checked response, after 2 exchanges. -/
theorem c2_handshake_amended_witness :
    device_get_version badResp 1 = ⟨-1, [], 5, 4, if 0 < (1:Int) then 4 else 0⟩ ∧
    device_get_version okResp 1 =
      ⟨gvRet (okResp 1), [okResp 1 0 % 256, okResp 1 1 % 256, okResp 1 2 % 256], 1 + 1, 1,
        if 0 < (1:Int) then 1 - 1 else 0⟩ :=
  ⟨(c2_handshake_amended badResp 1).1 (fun j h1 h2 => by
      have h : badResp j = fun _ => 0 := rfl
      rw [h]
      decide),
    (c2_handshake_amended okResp 1).2 1 (by norm_num) (by norm_num)
      (fun j h1 h2 => by omega) (by decide)⟩

/-- Claim C9 (counterexample): a call whose response carries the magic word
can return a non-positive status. A device reporting variant bytes
`0x80,0x00,0x00` is accepted (the variant is captured) yet the packed return
`0x80 << 24 | ...` wraps negative in 32-bit `int` arithmetic, so the
"success" return is negative, not positive. -/
theorem c9_counterexample :
    respMagic (c9resp 1) = 0x55444556 ∧
    (device_get_version c9resp 1).variant = [128, 0, 0] ∧
    (device_get_version c9resp 1).checked = 1 ∧
    (device_get_version c9resp 1).ret = -2147483648 ∧
    (device_get_version c9resp 1).ret < 0 := by decide

/-- Claim C9 (amended): the handshake-failure path returns `-1` (non-positive);
an accepted call returns the three captured variant bytes packed into the top
three bytes of a 32-bit signed value, which is positive if and only if the
first variant byte is below `0x80` and the three bytes are not all zero
(negative when the first byte is `0x80` or above). -/
theorem c9_ret_flag (resp : Nat → Nat → Nat) (verb : Int) :
    ((∀ j, 1 ≤ j → j ≤ 4 → respMagic (resp j) ≠ DEV_MAGICn) →
      (device_get_version resp verb).ret = -1) ∧
    (∀ k, 1 ≤ k → k ≤ 4 → (∀ j, 1 ≤ j → j < k → respMagic (resp j) ≠ DEV_MAGICn) →
      respMagic (resp k) = DEV_MAGICn →
      (device_get_version resp verb).ret =
        toSigned32 (resp k 0 % 256 * 16777216 + resp k 1 % 256 * 65536 +
          resp k 2 % 256 * 256) ∧
      (resp k 0 % 256 < 128 →
        (0 < (device_get_version resp verb).ret ↔
          ¬ (resp k 0 % 256 = 0 ∧ resp k 1 % 256 = 0 ∧ resp k 2 % 256 = 0))) ∧
      (128 ≤ resp k 0 % 256 → (device_get_version resp verb).ret < 0)) := by
  have hret : (device_get_version resp verb).ret = (gvLoop resp verb 4 1).ret := rfl
  constructor
  · intro h
    rw [hret, gvLoop_all_fail resp verb 4 1 (fun j h1 h2 => h j h1 (by omega))]
  · intro k hk1 hk4 hpre hmag
    have hacc := gvLoop_accept resp verb 4 1 (k - 1) (by omega)
      (fun i hi => hpre (1 + i) (by omega) (by omega))
      (by
        have he : 1 + (k - 1) = k := by omega
        rw [he]
        exact hmag)
    have he : 1 + (k - 1) = k := by omega
    rw [he] at hacc
    have hS : (device_get_version resp verb).ret =
        toSigned32 (resp k 0 % 256 * 16777216 + resp k 1 % 256 * 65536 +
          resp k 2 % 256 * 256) := by
      rw [hret, hacc]
      show gvRet (resp k) = _
      exact gvRet_eq (resp k)
    refine ⟨hS, ?_, ?_⟩
    · intro ha
      rw [hS]
      unfold toSigned32
      rw [Nat.mod_eq_of_lt (by omega)]
      split_ifs with hlt
      · constructor
        · intro h0
          omega
        · intro h0
          omega
      · exfalso
        omega
    · intro ha
      rw [hS]
      unfold toSigned32
      rw [Nat.mod_eq_of_lt (by omega)]
      split_ifs with hlt
      · exfalso
        omega
      · omega

/-- Witness for `c9_ret_flag`: the never-matching device returns `-1`; the
accepting device with variant `'B','.','1'` returns the packed value, which
is positive. -/
theorem c9_ret_flag_witness :
    (device_get_version badResp 1).ret = -1 ∧
    (device_get_version okResp 1).ret =
      toSigned32 (okResp 1 0 % 256 * 16777216 + okResp 1 1 % 256 * 65536 +
        okResp 1 2 % 256 * 256) ∧
    0 < (device_get_version okResp 1).ret := by
  have hacc := (c9_ret_flag okResp 1).2 1 (by norm_num) (by norm_num)
    (fun j h1 h2 => by omega) (by decide)
  exact ⟨(c9_ret_flag badResp 1).1 (fun j h1 h2 => by
      have h : badResp j = fun _ => 0 := rfl
      rw [h]
      decide), hacc.1,
    (hacc.2.1 (by decide)).mpr (by decide)⟩
